import Mathlib

/- Verification development for the gojade template engine.

   The node model and HTML renderer are translated from node.go; the
   tokenizer state machine is translated from the lexer source file
   (package jade, items/lexer/state functions).  Go strings and byte
   slices are modelled as lists of characters (`Str`); Go byte positions
   become character positions.  All behaviours examined here concern
   ASCII inputs, on which the two coincide, and every single-byte read
   the scanner performs (`l.input[l.start]`) compares the byte against
   ASCII characters, which a multi-byte lead byte never equals, so the
   character-level model is observationally faithful to the byte-level
   dispatch.  Go runtime panics (index out of range, slice bounds out of
   range) are modelled explicitly as a `crash` result. -/

namespace gojade

/-- Characters of Go strings and byte slices. -/
abbrev Str := List Char

/- ------------------------------------------------------------------ -/
/- Node model and renderer, translated from node.go.                   -/
/- ------------------------------------------------------------------ -/

/-- Translation of the `doctypes` map of node.go.  A Go map lookup on an
absent key returns the zero value, the empty string, which is how
`DoctypeNode.HTMLString` detects absence. -/
def doctypes (k : Str) : Str :=
  if k = "5".data then "<!DOCTYPE html>".data
  else if k = "default".data then "<!DOCTYPE html>".data
  else if k = "xml".data then "<?xml version=\"1.0\" encoding=\"utf-8\" ?>".data
  else if k = "transitional".data then
    "<!DOCTYPE html PUBLIC \"-//W3C//DTD XHTML 1.0 Transitional//EN\" \"http://www.w3.org/TR/xhtml1/DTD/xhtml1-transitional.dtd\">".data
  else if k = "strict".data then
    "<!DOCTYPE html PUBLIC \"-//W3C//DTD XHTML 1.0 Strict//EN\" \"http://www.w3.org/TR/xhtml1/DTD/xhtml1-strict.dtd\">".data
  else if k = "frameset".data then
    "<!DOCTYPE html PUBLIC \"-//W3C//DTD XHTML 1.0 Frameset//EN\" \"http://www.w3.org/TR/xhtml1/DTD/xhtml1-frameset.dtd\">".data
  else if k = "1.1".data then
    "<!DOCTYPE html PUBLIC \"-//W3C//DTD XHTML 1.1//EN\" \"http://www.w3.org/TR/xhtml11/DTD/xhtml11.dtd\">".data
  else if k = "basic".data then
    "<!DOCTYPE html PUBLIC \"-//W3C//DTD XHTML Basic 1.1//EN\" \"http://www.w3.org/TR/xhtml-basic/xhtml-basic11.dtd\">".data
  else if k = "mobile".data then
    "<!DOCTYPE html PUBLIC \"-//WAPFORUM//DTD XHTML Mobile 1.2//EN\" \"http://www.openmobilealliance.org/tech/DTD/xhtml-mobile12.dtd\">".data
  else []

/-- Parse-tree nodes of node.go as a tagged union: TextNode, TagNode,
AttrNode, DoctypeNode, IdNode, ClassNode (`cls`, since `class` is a Lean
keyword) and ListNode.  The Go `NodeType` tag is the constructor. -/
inductive Node where
  | text (s : Str)
  | tag (t : Str) (children : List Node)
  | attr (s : Str)
  | doctype (s : Str)
  | id (s : Str)
  | cls (s : Str)
  | list (children : List Node)

/-- Translation of the child loop of `TagNode.HTMLString` (node.go): one
pass over the children threading the opening-tag buffer `b`, the class
buffer `classes` and the class counter `n_classes`.  The `HTMLString`
of a Class/Attr/Id child is its raw payload, inlined here. -/
def attrLoop : List Node → Str × Str × Nat → Str × Str × Nat
  | [], acc => acc
  | n :: ns, (b, classes, k) =>
    let cacc : Str × Nat :=
      match n with
      | .cls s => ((if 0 < k then classes ++ [' '] else classes) ++ s, k + 1)
      | _ => (classes, k)
    let b1 : Str :=
      match n with
      | .attr s => b ++ [' '] ++ s
      | _ => b
    let b2 : Str :=
      match n with
      | .id s => b1 ++ " id=\"".data ++ s ++ ['\"']
      | _ => b1
    attrLoop ns (b2, cacc.1, cacc.2)

mutual

/-- Translation of the `HTMLString` methods of node.go.  Text, Attr, Id
and Class render their raw payload; Doctype consults the `doctypes`
table and falls back to a synthesized declaration; List concatenates all
children; Tag builds the opening tag from its Attr/Id/Class children,
renders Text/Tag children as body and always emits a closing tag. -/
def Node.htmlString : Node → Str
  | .text s => s
  | .attr s => s
  | .id s => s
  | .cls s => s
  | .doctype s =>
    if (doctypes s).length ≠ 0 then doctypes s
    else "<!DOCTYPE ".data ++ s ++ " >".data
  | .list ns => listHTML ns
  | .tag t ns =>
    match attrLoop ns ('<' :: t, [], 0) with
    | (b, classes, _) =>
      (if 0 < classes.length then b ++ " class=\"".data ++ classes ++ ['\"'] else b)
        ++ ['>'] ++ bodyHTML ns ++ "</".data ++ t ++ ['>']

/-- Body pass of `TagNode.HTMLString`: only Text and Tag children are
rendered into the element body. -/
def bodyHTML : List Node → Str
  | [] => []
  | n :: ns =>
    (match n with
     | .text s => Node.htmlString (.text s)
     | .tag t ms => Node.htmlString (.tag t ms)
     | _ => []) ++ bodyHTML ns

/-- Translation of `ListNode.HTMLString`: concatenation of the
`HTMLString` of every child, in order. -/
def listHTML : List Node → Str
  | [] => []
  | n :: ns => Node.htmlString n ++ listHTML ns

end

mutual

/-- Translation of the `String` methods of node.go (the debug/plain
rendering): a TagNode prints only its tag name, a ListNode prints the
concatenation of its children, all other nodes print their payload. -/
def Node.string : Node → Str
  | .text s => s
  | .attr s => s
  | .id s => s
  | .cls s => s
  | .doctype s => s
  | .tag t _ => t
  | .list ns => listString ns

/-- Concatenation used by `ListNode.String`. -/
def listString : List Node → Str
  | [] => []
  | n :: ns => Node.string n ++ listString ns

end

mutual

/-- Translation of the `Copy`/`CopyList`/`CopyTag` methods of node.go:
a recursive structural clone rebuilding every node and every payload
slice (`append([]byte{}, ...)`); the Go nil-receiver shortcut has no
counterpart for values. -/
def Node.copy : Node → Node
  | .text s => .text s
  | .attr s => .attr s
  | .id s => .id s
  | .cls s => .cls s
  | .doctype s => .doctype s
  | .tag t ns => .tag t (copyList ns)
  | .list ns => .list (copyList ns)

/-- Child-by-child clone used by `CopyList` and `CopyTag`. -/
def copyList : List Node → List Node
  | [] => []
  | n :: ns => Node.copy n :: copyList ns

end

/- Specification-side helper definitions, used to state the claims about
the renderer in the vocabulary of the specification (encounter order,
space-joined class list, attribute fragments). -/

/-- Payloads of the Class children of a tag, in encounter order. -/
def clsPayloads : List Node → List Str
  | [] => []
  | .cls s :: ns => s :: clsPayloads ns
  | _ :: ns => clsPayloads ns

/-- Space-joined rendering of a list of class payloads. -/
def spaceJoin : List Str → Str
  | [] => []
  | [s] => s
  | s :: ss => s ++ [' '] ++ spaceJoin ss

/-- Opening-tag fragment a single child contributes: ` payload` for an
Attr child, ` id="payload"` for an Id child, nothing otherwise. -/
def openFrag : Node → Str
  | .attr s => ' ' :: s
  | .id s => " id=\"".data ++ s ++ ['\"']
  | _ => []

/-- Concatenated opening-tag fragments of a child list, in order. -/
def openFrags : List Node → Str
  | [] => []
  | n :: ns => openFrag n ++ openFrags ns

/-- Tail form of the space-joined list: a leading space before every
further payload. -/
def joinTail : List Str → Str
  | [] => []
  | s :: ss => (' ' :: s) ++ joinTail ss

/-- The nine keys of the `doctypes` table. -/
def doctypeKeys : List Str :=
  ["5".data, "default".data, "xml".data, "transitional".data, "strict".data,
   "frameset".data, "1.1".data, "basic".data, "mobile".data]

/- ------------------------------------------------------------------ -/
/- Tokenizer, translated from the lexer source (lex).                  -/
/- ------------------------------------------------------------------ -/

/-- Token kinds (`itemType`) of the lexer. -/
inductive itemType where
  | itemError
  | itemText
  | itemEndl
  | itemTag
  | itemAttr
  | itemIdentSpace
  | itemIdentTab
  | itemDoctype
  | itemComment
  | itemBlank
  | itemId
  | itemClass
  | itemEOF
deriving DecidableEq, Repr

/-- A scanned token (`item`): kind and the exact substring emitted. -/
structure item where
  typ : itemType
  val : Str
deriving DecidableEq, Repr

/-- Scanner state (`lexer`).  `pos` is the current position, `start` the
start of the pending item, `emitted` the tokens sent so far (the Go code
sends them over a buffered channel; only their order is observable).
The `width` field of the Go struct is used only inside `peek` (via
`backup`) and is eliminated by modelling `peek` as a direct lookup; the
unused delimiter fields are omitted. -/
structure lexer where
  input : Str
  pos : Nat
  start : Nat
  emitted : List item
deriving DecidableEq, Repr

/-- Translation of `next`: consume one character, or report end of input
(`eof`, modelled as `none`) leaving the position unchanged. -/
def lexNext (l : lexer) : Option Char × lexer :=
  match l.input.get? l.pos with
  | none => (none, l)
  | some c => (some c, { l with pos := l.pos + 1 })

/-- Position advance for the Go call sites that discard the rune. -/
def advance (l : lexer) : lexer := (lexNext l).2

/-- Translation of `peek` (`next` followed by `backup`): the rune at the
current position, without consuming it. -/
def lexPeek (l : lexer) : Option Char :=
  l.input.get? l.pos

/-- Translation of `ignore`: drop the pending input. -/
def ignore (l : lexer) : lexer := { l with start := l.pos }

/-- The Go slice expression `input[a:b]`. -/
def slice (s : Str) (a b : Nat) : Str := (s.take b).drop a

/-- Translation of `emit`: append `input[start:pos]` as an item of kind
`t` and move `start` up.  A Go slice expression panics unless
`start ≤ pos ≤ len(input)`; the panic is modelled as `none`. -/
def emit (l : lexer) (t : itemType) : Option lexer :=
  if l.start ≤ l.pos ∧ l.pos ≤ l.input.length then
    some { l with
           emitted := l.emitted ++ [⟨t, slice l.input l.start l.pos⟩],
           start := l.pos }
  else none

/-- The scanner states, one per state function of the source. -/
inductive LState where
  | sTag
  | sEOF
  | sDocType
  | sId
  | sClass
  | sText
  | sComment
  | sAttr
  | sIndent
  | sNewLine
deriving DecidableEq, Repr

/-- Result of running one state function: continue in a next state,
terminate (the Go state function returned nil), or hit a runtime panic
(index or slice out of range). -/
inductive StepRes where
  | next (l : lexer) (s : LState)
  | done (l : lexer)
  | crash (l : lexer)
deriving DecidableEq, Repr

/-- Emit and continue, propagating the modelled slice panic. -/
def emitThen (l : lexer) (t : itemType) (k : lexer → StepRes) : StepRes :=
  match emit l t with
  | none => .crash l
  | some l2 => k l2

/-- The comment marker `//`. -/
def commentMark : Str := ['/', '/']

/-- The short doctype marker `!!!`. -/
def docTypeShort : Str := ['!', '!', '!']

/-- The long doctype marker `doctype`. -/
def docTypeLong : Str := "doctype".data

/-- Helper for `startsWith`, recursing on the prefix. -/
def startsWithAux : Str → Str → Bool
  | [], _ => true
  | _ :: _, [] => false
  | p :: ps, c :: cs => c == p && startsWithAux ps cs

/-- Translation of `strings.HasPrefix s p`. -/
def startsWith (s p : Str) : Bool := startsWithAux p s

/-- Translation of `strings.Index(s, "\n")`: index of the first newline. -/
def indexOfNL : Str → Option Nat
  | [] => none
  | c :: cs => if c = '\n' then some 0 else (indexOfNL cs).map (· + 1)

/-- Translation of `lexTag`.  The initial byte read `l.input[l.start]`
panics when `start` is past the end. -/
def stepTag (l : lexer) : StepRes :=
  match l.input.get? l.start with
  | none => .crash l
  | some c =>
    if c = '.' then emitThen l .itemTag fun l2 => .next (advance l2) .sClass
    else if c = '#' then emitThen l .itemTag fun l2 => .next (advance l2) .sId
    else if c = ' ' ∨ c = '\t' then .next l .sIndent
    else if c = '|' then .next (ignore l) .sText
    else if c = '\r' ∨ c = '\n' then .next l .sNewLine
    else if startsWith (l.input.drop l.start) commentMark then .next l .sComment
    else if startsWith (l.input.drop l.start) docTypeShort
         ∨ startsWith (l.input.drop l.start) docTypeLong then .next l .sDocType
    else
      match lexPeek l with
      | none =>
        if l.start < l.pos then emitThen l .itemTag fun l2 => .next l2 .sEOF
        else .next l .sEOF
      | some r =>
        if r = ' ' then emitThen l .itemTag fun l2 => .next (ignore (advance l2)) .sText
        else if r = '(' then emitThen l .itemTag fun l2 => .next (ignore (advance l2)) .sAttr
        else if r = '.' then emitThen l .itemTag fun l2 => .next (ignore (advance l2)) .sClass
        else if r = '#' then emitThen l .itemTag fun l2 => .next (ignore (advance l2)) .sId
        else if r = '\n' ∨ r = '\r' then emitThen l .itemTag fun l2 => .next (advance l2) .sNewLine
        else .next (advance l) .sTag

/-- Translation of `lexEOF`. -/
def stepEOF (l : lexer) : StepRes :=
  if l.start < l.pos then
    emitThen l .itemText fun l2 => emitThen l2 .itemEOF fun l3 => .done l3
  else
    emitThen l .itemEOF fun l2 => .done l2

/-- Translation of `lexDocType`: skip a marker-sized amount (`doctype `
is 8 characters, `!!! ` is 4), take up to the next newline as the
Doctype payload, or emit the terminal error when no newline remains. -/
def stepDocType (l : lexer) : StepRes :=
  let pre : Nat := if startsWith (l.input.drop l.pos) docTypeShort then 4 else 8
  match indexOfNL (l.input.drop l.pos) with
  | none => .done { l with emitted := l.emitted ++ [⟨.itemError, "unclosed doctype".data⟩] }
  | some i =>
    emitThen { l with start := l.start + pre, pos := l.pos + i } .itemDoctype
      fun l2 => .next (advance l2) .sNewLine

/-- Translation of `lexId`. -/
def stepId (l : lexer) : StepRes :=
  match lexPeek l with
  | none => emitThen l .itemId fun l2 => .next l2 .sEOF
  | some r =>
    if r = '\r' ∨ r = '\n' then emitThen l .itemId fun l2 => .next (advance l2) .sNewLine
    else if r = '(' then emitThen l .itemId fun l2 => .next (advance l2) .sAttr
    else if r = ' ' then emitThen l .itemId fun l2 => .next (advance l2) .sText
    else if r = '.' then emitThen l .itemId fun l2 => .next (advance l2) .sClass
    else .next (advance l) .sId

/-- Translation of `lexClass` (no `.` case, unlike `lexId`). -/
def stepClass (l : lexer) : StepRes :=
  match lexPeek l with
  | none => emitThen l .itemClass fun l2 => .next l2 .sEOF
  | some r =>
    if r = '\r' ∨ r = '\n' then emitThen l .itemClass fun l2 => .next (advance l2) .sNewLine
    else if r = '(' then emitThen l .itemClass fun l2 => .next (advance l2) .sAttr
    else if r = ' ' then emitThen l .itemClass fun l2 => .next (advance l2) .sText
    else .next (advance l) .sClass

/-- Translation of `lexText`.  The `unexpected` guard reads
`l.input[l.start]` and panics past the end. -/
def stepText (l : lexer) : StepRes :=
  match l.input.get? l.start with
  | none => .crash l
  | some c0 =>
    if c0 = '\n' ∨ c0 = '\r' then .next l .sNewLine
    else
      match lexPeek l with
      | none => emitThen l .itemText fun l2 => .next l2 .sEOF
      | some r =>
        if r = '\r' ∨ r = '\n' then emitThen l .itemText fun l2 => .next (advance l2) .sNewLine
        else .next (advance l) .sText

/-- Translation of `lexComment`. -/
def stepComment (l : lexer) : StepRes :=
  match lexPeek l with
  | none => emitThen l .itemComment fun l2 => .next l2 .sEOF
  | some r =>
    if r = '\r' ∨ r = '\n' then emitThen l .itemComment fun l2 => .next (advance l2) .sNewLine
    else .next (advance l) .sComment

/-- Translation of `lexAttr`.  The Go body is an inner loop; one loop
iteration is one step here (the `,` and default arms continue the loop,
the `)` arm performs the after-loop epilogue).  At end of input `peek`
keeps returning `eof`, which falls into the default arm and makes no
progress: the loop never exits. -/
def stepAttr (l : lexer) : StepRes :=
  match lexPeek l with
  | none => .next l .sAttr
  | some r =>
    if r = ')' then
      emitThen l .itemAttr fun l2 => .next (advance (ignore (advance l2))) .sText
    else if r = ',' then
      emitThen l .itemAttr fun l2 => .next (ignore (advance l2)) .sAttr
    else .next (advance l) .sAttr

/-- Translation of `lexIndent`: one token per leading whitespace
character, read via `l.input[l.start]` (panics past the end). -/
def stepIndent (l : lexer) : StepRes :=
  match l.input.get? l.start with
  | none => .crash l
  | some c =>
    if c = '\t' then emitThen l .itemIdentTab fun l2 => .next (advance l2) .sIndent
    else if c = ' ' then emitThen l .itemIdentSpace fun l2 => .next (advance l2) .sIndent
    else .next l .sTag

/-- Translation of `lexNewLine`: one Endl token per newline character,
read via `l.input[l.start]` (panics past the end). -/
def stepNewLine (l : lexer) : StepRes :=
  match l.input.get? l.start with
  | none => .crash l
  | some c =>
    if c = '\r' ∨ c = '\n' then emitThen l .itemEndl fun l2 => .next (advance l2) .sNewLine
    else .next l .sIndent

/-- One step of the scanner: run the current state function. -/
def step (l : lexer) : LState → StepRes
  | .sTag => stepTag l
  | .sEOF => stepEOF l
  | .sDocType => stepDocType l
  | .sId => stepId l
  | .sClass => stepClass l
  | .sText => stepText l
  | .sComment => stepComment l
  | .sAttr => stepAttr l
  | .sIndent => stepIndent l
  | .sNewLine => stepNewLine l

/-- Outcome of driving the scanner (as `nextItem` does, running state
functions until the machine stops): the full emitted token sequence on
normal termination, the tokens emitted before a modelled runtime panic,
or fuel exhaustion when the machine has not stopped. -/
inductive Outcome where
  | finished (items : List item)
  | crashed (items : List item)
  | outOfFuel (items : List item)
deriving DecidableEq, Repr

/-- Discriminator for fuel exhaustion. -/
def Outcome.isOutOfFuel : Outcome → Bool
  | .outOfFuel _ => true
  | _ => false

/-- Drive the scanner for at most `fuel` steps. -/
def runLex : Nat → lexer → LState → Outcome
  | 0, l, _ => .outOfFuel l.emitted
  | fuel + 1, l, s =>
    match step l s with
    | .next l2 s2 => runLex fuel l2 s2
    | .done l2 => .finished l2.emitted
    | .crash l2 => .crashed l2.emitted

/-- Translation of `lex`: fresh scanner over the input, initial state
`lexTag` (the delimiter parameters are stored but never read by any
state function). -/
def lexInit (s : Str) : lexer := ⟨s, 0, 0, []⟩

/-- Modelled from the spec: the tree builder (`Parse`/`build`, sections
4.2 and 7 of the specification) is not among the provided source files.
Per the specification, building consumes tokens in order, terminates
successfully on EndOfInput, and propagates an Error token as the Parse
failure with no partial tree.  Only that error-propagation skeleton is
modelled: `Except.error` carries the message and no tree value. -/
def buildResult : List item → Except Str Unit
  | [] => .ok ()
  | it :: rest =>
    if it.typ = .itemError then .error it.val
    else if it.typ = .itemEOF then .ok ()
    else buildResult rest

/-- Number of indent tokens in an emitted sequence. -/
def indentCount (its : List item) : Nat :=
  its.countP fun it => it.typ == .itemIdentSpace || it.typ == .itemIdentTab

/-- Number of leading whitespace characters of an input. -/
def leadingWS (s : Str) : Nat :=
  (s.takeWhile fun c => c == ' ' || c == '\t').length

/- ------------------------------------------------------------------ -/
/- Helper lemmas about the renderer.                                   -/
/- ------------------------------------------------------------------ -/

theorem attrLoop_fst : ∀ (ns : List Node) (b c : Str) (k : Nat),
    (attrLoop ns (b, c, k)).1 = b ++ openFrags ns
  | [], b, c, k => by simp [attrLoop, openFrags]
  | n :: ns, b, c, k => by
    cases n <;>
      simp [attrLoop, openFrags, openFrag, attrLoop_fst ns, List.append_assoc]

theorem spaceJoin_cons (s : Str) : ∀ ss : List Str,
    spaceJoin (s :: ss) = s ++ joinTail ss
  | [] => by simp [spaceJoin, joinTail]
  | t :: ts => by
    simp [spaceJoin, joinTail, spaceJoin_cons t ts, List.append_assoc]

theorem attrLoop_cls_pos : ∀ (ns : List Node) (b c : Str) (k : Nat), 0 < k →
    (attrLoop ns (b, c, k)).2.1 = c ++ joinTail (clsPayloads ns)
  | [], b, c, k, _ => by simp [attrLoop, clsPayloads, joinTail]
  | n :: ns, b, c, k, hk => by
    cases n <;>
      simp [attrLoop, clsPayloads, joinTail, hk,
        attrLoop_cls_pos ns _ _ _ (Nat.succ_pos k), attrLoop_cls_pos ns _ _ _ hk,
        List.append_assoc]

theorem attrLoop_cls : ∀ (ns : List Node) (b : Str),
    (attrLoop ns (b, [], 0)).2.1 = spaceJoin (clsPayloads ns)
  | [], b => by simp [attrLoop, clsPayloads, spaceJoin]
  | n :: ns, b => by
    cases n <;>
      simp [attrLoop, clsPayloads, spaceJoin_cons, attrLoop_cls ns,
        attrLoop_cls_pos ns _ _ _ Nat.one_pos]

/-- Characterization of `TagNode.HTMLString` in the specification's
vocabulary: opening tag fragments in child encounter order, then the
space-joined class list (only when non-empty), then the body pass. -/
theorem htmlString_tag_eq (t : Str) (ns : List Node) :
    Node.htmlString (.tag t ns) =
      ('<' :: t) ++ openFrags ns
        ++ (if 0 < (spaceJoin (clsPayloads ns)).length
            then " class=\"".data ++ spaceJoin (clsPayloads ns) ++ ['\"'] else [])
        ++ ['>'] ++ bodyHTML ns ++ "</".data ++ t ++ ['>'] := by
  rcases h : attrLoop ns ('<' :: t, [], 0) with ⟨b, classes, k⟩
  have hb : b = ('<' :: t) ++ openFrags ns := by
    have := attrLoop_fst ns ('<' :: t) [] 0
    rw [h] at this; exact this
  have hc : classes = spaceJoin (clsPayloads ns) := by
    have := attrLoop_cls ns ('<' :: t)
    rw [h] at this; exact this
  simp only [Node.htmlString, h, hb, hc]
  split <;> simp [List.append_assoc]

theorem openFrags_append : ∀ xs ys : List Node,
    openFrags (xs ++ ys) = openFrags xs ++ openFrags ys
  | [], ys => by simp [openFrags]
  | x :: xs, ys => by
    simp [openFrags, openFrags_append xs ys, List.append_assoc]

theorem clsPayloads_append : ∀ xs ys : List Node,
    clsPayloads (xs ++ ys) = clsPayloads xs ++ clsPayloads ys
  | [], ys => by simp [clsPayloads]
  | x :: xs, ys => by
    cases x <;> simp [clsPayloads, clsPayloads_append xs ys]

theorem bodyHTML_append : ∀ xs ys : List Node,
    bodyHTML (xs ++ ys) = bodyHTML xs ++ bodyHTML ys
  | [], ys => by simp [bodyHTML]
  | x :: xs, ys => by
    cases x <;> simp [bodyHTML, bodyHTML_append xs ys, List.append_assoc]

theorem openFrags_attrs : ∀ as : List Str,
    openFrags (as.map Node.attr) = (as.map fun a => ' ' :: a).flatten
  | [] => by simp [openFrags]
  | a :: as => by simp [openFrags, openFrag, openFrags_attrs as]

theorem clsPayloads_attrs : ∀ as : List Str, clsPayloads (as.map Node.attr) = []
  | [] => by simp [clsPayloads]
  | a :: as => by simp [clsPayloads, clsPayloads_attrs as]

theorem bodyHTML_attrs : ∀ as : List Str, bodyHTML (as.map Node.attr) = []
  | [] => by simp [bodyHTML]
  | a :: as => by simp [bodyHTML, bodyHTML_attrs as]

theorem doctypes_keys_iff (k : Str) : doctypes k ≠ [] ↔ k ∈ doctypeKeys := by
  unfold doctypes
  split_ifs with h1 h2 h3 h4 h5 h6 h7 h8 h9
  · subst h1; decide
  · subst h2; decide
  · subst h3; decide
  · subst h4; decide
  · subst h5; decide
  · subst h6; decide
  · subst h7; decide
  · subst h8; decide
  · subst h9; decide
  · refine iff_of_false (by simp) ?_
    simp only [doctypeKeys, List.mem_cons, List.not_mem_nil, or_false]
    rintro (h | h | h | h | h | h | h | h | h) <;> contradiction

mutual

theorem copy_eq : ∀ n : Node, Node.copy n = n
  | .text _ => rfl
  | .attr _ => rfl
  | .id _ => rfl
  | .cls _ => rfl
  | .doctype _ => rfl
  | .tag t ns => by rw [Node.copy, copyList_eq ns]
  | .list ns => by rw [Node.copy, copyList_eq ns]

theorem copyList_eq : ∀ ns : List Node, copyList ns = ns
  | [] => rfl
  | n :: ns => by rw [copyList, copy_eq n, copyList_eq ns]

end

/- ------------------------------------------------------------------ -/
/- Claim theorems about the node model and renderer.                   -/
/- ------------------------------------------------------------------ -/

/-- C4: `DoctypeNode.HTMLString` consults the fixed `doctypes` table,
whose keys are exactly 5, default, xml, transitional, strict, frameset,
1.1, basic, mobile; the payload "5" renders as `<!DOCTYPE html>`, and
every payload absent from the table renders as the synthesized
`<!DOCTYPE payload >` (for example "unknown"). -/
theorem c4_doctype_table :
    (∀ k : Str, doctypes k ≠ [] ↔ k ∈ doctypeKeys)
  ∧ Node.htmlString (.doctype ("5".data)) = "<!DOCTYPE html>".data
  ∧ (∀ k : Str, doctypes k = [] →
      Node.htmlString (.doctype k) = "<!DOCTYPE ".data ++ k ++ " >".data)
  ∧ Node.htmlString (.doctype ("unknown".data)) = "<!DOCTYPE unknown >".data := by
  refine ⟨doctypes_keys_iff, rfl, ?_, rfl⟩
  intro k hk
  simp [Node.htmlString, hk]

/-- C4 witness: the fallback branch of the theorem evaluated at the
concrete payload "unknown". -/
theorem c4_doctype_table_witness :
    Node.htmlString (.doctype ("unknown".data))
      = "<!DOCTYPE ".data ++ "unknown".data ++ " >".data :=
  c4_doctype_table.2.2.1 ("unknown".data) (by decide)

/-- C5 counterexample: a Tag whose Id child precedes its Attr child
renders the id before the attribute, not the attributes first as the
claim states. -/
theorem c5_counterexample :
    Node.htmlString (.tag ("div".data) [.id ("main".data), .attr ("data-x=1".data)])
      = "<div id=\"main\" data-x=1></div>".data
  ∧ Node.htmlString (.tag ("div".data) [.id ("main".data), .attr ("data-x=1".data)])
      ≠ "<div data-x=1 id=\"main\"></div>".data :=
  ⟨rfl, by decide⟩

/-- C5 (amended): the opening tag renders Attr and Id children in child
encounter order; in particular whenever every Attr child precedes the Id
child, all attribute payloads are placed before the id attribute. -/
theorem c5_attr_before_id_in_encounter_order (t i : Str) (as : List Str) :
    Node.htmlString (.tag t (as.map Node.attr ++ [Node.id i])) =
      ('<' :: t) ++ (as.map fun a => ' ' :: a).flatten ++ " id=\"".data ++ i ++ ['\"']
        ++ ['>'] ++ "</".data ++ t ++ ['>'] := by
  rw [htmlString_tag_eq]
  simp [openFrags_append, clsPayloads_append, bodyHTML_append,
    openFrags_attrs, clsPayloads_attrs, bodyHTML_attrs,
    openFrags, openFrag, clsPayloads, bodyHTML, spaceJoin, List.append_assoc]

/-- C6: a Tag accumulates the payloads of its Class children into one
space-joined list in encounter order without deduplication, appended as
` class="..."` after all other attributes exactly when the joined list
is non-empty; class children "a", "b", "a" render as `class="a b a"`. -/
theorem c6_class_aggregation :
    (∀ (t : Str) (ns : List Node),
      Node.htmlString (.tag t ns) =
        ('<' :: t) ++ openFrags ns
          ++ (if 0 < (spaceJoin (clsPayloads ns)).length
              then " class=\"".data ++ spaceJoin (clsPayloads ns) ++ ['\"'] else [])
          ++ ['>'] ++ bodyHTML ns ++ "</".data ++ t ++ ['>'])
  ∧ Node.htmlString (.tag ("div".data) [.cls ("a".data), .cls ("b".data), .cls ("a".data)])
      = "<div class=\"a b a\"></div>".data :=
  ⟨htmlString_tag_eq, rfl⟩

/-- C9: `Copy` returns a structurally equal clone — same kind, same
payload, recursively copied children in the same order — whose render
and text outputs equal the original's. -/
theorem c9_copy_is_deep_clone (n : Node) :
    Node.copy n = n
  ∧ Node.htmlString (Node.copy n) = Node.htmlString n
  ∧ Node.string (Node.copy n) = Node.string n :=
  ⟨copy_eq n, by rw [copy_eq n], by rw [copy_eq n]⟩

/-- C10: a Tag child whose kind is neither Attr, Id, Class, Text nor Tag
(that is, a Doctype or List child) contributes nothing to the rendered
HTML of the tag: dropping it leaves the output unchanged. -/
theorem c10_other_children_render_nothing (t : Str) (ns1 ns2 : List Node) (x : Node)
    (hx : (∃ s, x = Node.doctype s) ∨ (∃ ms, x = Node.list ms)) :
    Node.htmlString (.tag t (ns1 ++ x :: ns2)) = Node.htmlString (.tag t (ns1 ++ ns2)) := by
  rw [htmlString_tag_eq, htmlString_tag_eq]
  rcases hx with ⟨s, rfl⟩ | ⟨ms, rfl⟩ <;>
    simp [openFrags_append, clsPayloads_append, bodyHTML_append,
      openFrags, openFrag, clsPayloads, bodyHTML]

/-- C10 witness: a Doctype child inside a tag, evaluated concretely. -/
theorem c10_other_children_render_nothing_witness :
    Node.htmlString (.tag ("div".data) [Node.doctype ("5".data), Node.text ("x".data)])
      = Node.htmlString (.tag ("div".data) [Node.text ("x".data)]) :=
  c10_other_children_render_nothing ("div".data) [] [Node.text ("x".data)]
    (Node.doctype ("5".data)) (Or.inl ⟨"5".data, rfl⟩)

/- ------------------------------------------------------------------ -/
/- Helper lemmas about the tokenizer.                                  -/
/- ------------------------------------------------------------------ -/

theorem indexOfNL_eq_none : ∀ l : Str, '\n' ∉ l → indexOfNL l = none := by
  intro l h
  induction l with
  | nil => rfl
  | cons c cs ih =>
    rw [List.mem_cons, not_or] at h
    have hc : ¬ (c = '\n') := fun hh => h.1 hh.symm
    simp [indexOfNL, hc, ih h.2]

theorem lex_get?_of_drop {I : Str} {p : Nat} {c : Char} {u : Str}
    (h : I.drop p = c :: u) : I.get? p = some c := by
  have h2 := List.get?_drop I p 0
  rw [h] at h2
  simpa using h2.symm

theorem lex_drop_succ {I : Str} {p : Nat} {c : Char} {u : Str}
    (h : I.drop p = c :: u) : I.drop (p + 1) = u := by
  have h2 := List.drop_drop 1 p I
  rw [h] at h2
  simpa [Nat.add_comm] using h2.symm

theorem lt_length_of_drop_ne {I : Str} {p : Nat} (h : I.drop p ≠ []) :
    p < I.length := by
  by_contra hle
  push_neg at hle
  exact h (List.drop_eq_nil_of_le hle)

theorem lex_lt_length {I : Str} {p : Nat} {c : Char} {u : Str}
    (h : I.drop p = c :: u) : p < I.length :=
  lt_length_of_drop_ne (by simp [h])

theorem slice_one {I : Str} {p : Nat} {c : Char} {u : Str}
    (h : I.drop p = c :: u) : slice I p (p + 1) = [c] := by
  unfold slice
  rw [List.drop_take (p + 1) p I, h]
  simp [Nat.add_sub_cancel_left]

theorem slice_to_end (I : Str) (a : Nat) : slice I a I.length = I.drop a := by
  unfold slice
  rw [List.take_length]

theorem slice_self (I : Str) (a : Nat) : slice I a a = [] :=
  List.drop_eq_nil_of_le (by simpa using List.length_take_le a I)

theorem emit_eq (l : lexer) (t : itemType)
    (h1 : l.start ≤ l.pos) (h2 : l.pos ≤ l.input.length) :
    emit l t = some { l with
      emitted := l.emitted ++ [⟨t, slice l.input l.start l.pos⟩],
      start := l.pos } := by
  unfold emit
  rw [if_pos ⟨h1, h2⟩]

theorem advance_of_lt {l : lexer} (h : l.pos < l.input.length) :
    advance l = { l with pos := l.pos + 1 } := by
  unfold advance lexNext
  rcases hx : l.input.get? l.pos with _ | c
  · exact absurd (List.get?_eq_none.mp hx) (Nat.not_le_of_lt h)
  · simp [hx]

theorem emitThen_eq {l l2 : lexer} {t : itemType} (h : emit l t = some l2) :
    ∀ k, emitThen l t k = k l2 := by
  intro k
  unfold emitThen
  rw [h]

theorem runLex_succ (n : Nat) (l : lexer) (s : LState) :
    runLex (n + 1) l s
      = match step l s with
        | .next l2 s2 => runLex n l2 s2
        | .done l2 => .finished l2.emitted
        | .crash l2 => .crashed l2.emitted := rfl

theorem runLex_next (n : Nat) (l : lexer) (s : LState) {l2 : lexer} {s2 : LState}
    (h : step l s = .next l2 s2) : runLex (n + 1) l s = runLex n l2 s2 := by
  rw [runLex_succ, h]

theorem runLex_done (n : Nat) (l : lexer) (s : LState) {l2 : lexer}
    (h : step l s = .done l2) : runLex (n + 1) l s = .finished l2.emitted := by
  rw [runLex_succ, h]

/-- Running the newline loop: with `pos = start + 1` and `m` newline
characters from `start` on, `lexNewLine` emits `m` Endl tokens (one per
newline character, each with that character as lexeme) and moves on to
`lexIndent` at the first non-newline character. -/
theorem newline_loop : ∀ (m : Nat) (I : Str) (p : Nat) (E : List item) (c : Char) (u : Str),
    I.drop p = List.replicate m '\n' ++ c :: u → c ≠ '\r' → c ≠ '\n' →
    ∀ fuel, runLex (fuel + m + 1) ⟨I, p + 1, p, E⟩ .sNewLine
      = runLex fuel ⟨I, p + m + 1, p + m, E ++ List.replicate m ⟨.itemEndl, ['\n']⟩⟩ .sIndent
  | 0, I, p, E, c, u => by
    intro h hr hn fuel
    have hg : I.get? p = some c := lex_get?_of_drop (by simpa using h)
    rw [List.get?_eq_getElem?] at hg
    simp [runLex, step, stepNewLine, hg, hr, hn]
  | m + 1, I, p, E, c, u => by
    intro h hr hn fuel
    rw [List.replicate_succ, List.cons_append] at h
    have hg : I.get? p = some '\n' := lex_get?_of_drop h
    rw [List.get?_eq_getElem?] at hg
    have hdrop : I.drop (p + 1) = List.replicate m '\n' ++ c :: u := lex_drop_succ h
    have hlt2 : p + 1 < I.length := lt_length_of_drop_ne (by simp [hdrop])
    have he : emit ⟨I, p + 1, p, E⟩ .itemEndl
        = some ⟨I, p + 1, p + 1, E ++ [⟨.itemEndl, ['\n']⟩]⟩ := by
      rw [emit_eq ⟨I, p + 1, p, E⟩ .itemEndl (Nat.le_succ p) (Nat.le_of_lt hlt2)]
      simp [slice_one h]
    have ha : advance (⟨I, p + 1, p + 1, E ++ [⟨.itemEndl, ['\n']⟩]⟩ : lexer)
        = ⟨I, p + 1 + 1, p + 1, E ++ [⟨.itemEndl, ['\n']⟩]⟩ :=
      advance_of_lt hlt2
    have hstep : runLex (fuel + (m + 1) + 1) ⟨I, p + 1, p, E⟩ .sNewLine
        = runLex (fuel + m + 1) ⟨I, p + 1 + 1, p + 1, E ++ [⟨.itemEndl, ['\n']⟩]⟩ .sNewLine := by
      rw [show fuel + (m + 1) + 1 = (fuel + m + 1) + 1 from rfl]
      simp [runLex, step, stepNewLine, hg, emitThen_eq he, ha]
    rw [hstep]
    refine (newline_loop m I (p + 1) (E ++ [⟨.itemEndl, ['\n']⟩]) c u hdrop hr hn fuel).trans
      (congrArg (fun l => runLex fuel l LState.sIndent) ?_)
    simp only [lexer.mk.injEq]
    refine ⟨trivial, by omega, by omega, ?_⟩
    simp [List.append_assoc, List.replicate_succ]

/-- Running the indent loop: with `pos = start + 1` and `n` space
characters from `start` on, `lexIndent` emits `n` IndentSpace tokens
(one per character, each with a one-space lexeme) and returns to
`lexTag` at the first non-whitespace character. -/
theorem indent_loop : ∀ (n : Nat) (I : Str) (q : Nat) (E : List item) (c : Char) (u : Str),
    I.drop q = List.replicate n ' ' ++ c :: u → c ≠ '\t' → c ≠ ' ' →
    ∀ fuel, runLex (fuel + n + 1) ⟨I, q + 1, q, E⟩ .sIndent
      = runLex fuel ⟨I, q + n + 1, q + n, E ++ List.replicate n ⟨.itemIdentSpace, [' ']⟩⟩ .sTag
  | 0, I, q, E, c, u => by
    intro h ht hs fuel
    have hg : I.get? q = some c := lex_get?_of_drop (by simpa using h)
    rw [List.get?_eq_getElem?] at hg
    simp [runLex, step, stepIndent, hg, ht, hs]
  | n + 1, I, q, E, c, u => by
    intro h ht hs fuel
    rw [List.replicate_succ, List.cons_append] at h
    have hg : I.get? q = some ' ' := lex_get?_of_drop h
    rw [List.get?_eq_getElem?] at hg
    have hdrop : I.drop (q + 1) = List.replicate n ' ' ++ c :: u := lex_drop_succ h
    have hlt2 : q + 1 < I.length := lt_length_of_drop_ne (by simp [hdrop])
    have he : emit ⟨I, q + 1, q, E⟩ .itemIdentSpace
        = some ⟨I, q + 1, q + 1, E ++ [⟨.itemIdentSpace, [' ']⟩]⟩ := by
      rw [emit_eq ⟨I, q + 1, q, E⟩ .itemIdentSpace (Nat.le_succ q) (Nat.le_of_lt hlt2)]
      simp [slice_one h]
    have ha : advance (⟨I, q + 1, q + 1, E ++ [⟨.itemIdentSpace, [' ']⟩]⟩ : lexer)
        = ⟨I, q + 1 + 1, q + 1, E ++ [⟨.itemIdentSpace, [' ']⟩]⟩ :=
      advance_of_lt hlt2
    have hstep : runLex (fuel + (n + 1) + 1) ⟨I, q + 1, q, E⟩ .sIndent
        = runLex (fuel + n + 1) ⟨I, q + 1 + 1, q + 1, E ++ [⟨.itemIdentSpace, [' ']⟩]⟩ .sIndent := by
      rw [show fuel + (n + 1) + 1 = (fuel + n + 1) + 1 from rfl]
      simp [runLex, step, stepIndent, hg, emitThen_eq he, ha]
    rw [hstep]
    refine (indent_loop n I (q + 1) (E ++ [⟨.itemIdentSpace, [' ']⟩]) c u hdrop ht hs fuel).trans
      (congrArg (fun l => runLex fuel l LState.sTag) ?_)
    simp only [lexer.mk.injEq]
    refine ⟨trivial, by omega, by omega, ?_⟩
    simp [List.append_assoc, List.replicate_succ]

/-- Running the text loop: `lexText` consumes the newline-free remainder
`u` of the line, emits it (from `start`) as one Text token at end of
input, and the EOF state closes the run. -/
theorem text_loop : ∀ (u : Str) (I : Str) (q p : Nat) (E : List item) (c0 : Char),
    I.get? q = some c0 → c0 ≠ '\n' → c0 ≠ '\r' →
    I.drop p = u → (∀ c ∈ u, c ≠ '\n' ∧ c ≠ '\r') → q ≤ p → p ≤ I.length →
    ∀ fuel, runLex (fuel + u.length + 2) ⟨I, p, q, E⟩ .sText
      = .finished (E ++ [⟨.itemText, I.drop q⟩, ⟨.itemEOF, []⟩])
  | [], I, q, p, E, c0 => by
    intro hq hn hr hdrop _ hqp hple fuel
    have hlen : I.length ≤ p := by
      have h2 := congrArg List.length hdrop
      simp [List.length_drop] at h2
      omega
    have hp : p = I.length := Nat.le_antisymm hple hlen
    have hp2 : I.get? p = none := List.get?_eq_none.mpr hlen
    rw [List.get?_eq_getElem?] at hq hp2
    have e1 : emit ⟨I, p, q, E⟩ .itemText
        = some ⟨I, p, p, E ++ [⟨.itemText, I.drop q⟩]⟩ := by
      rw [emit_eq _ _ hqp hple]
      simp only [hp]
      rw [slice_to_end]
    have e2 : emit ⟨I, p, p, E ++ [⟨.itemText, I.drop q⟩]⟩ .itemEOF
        = some ⟨I, p, p, (E ++ [⟨.itemText, I.drop q⟩]) ++ [⟨.itemEOF, []⟩]⟩ := by
      rw [emit_eq _ _ (Nat.le_refl p) hple]
      simp [slice_self]
    have hs1 : step (⟨I, p, q, E⟩ : lexer) .sText
        = .next ⟨I, p, p, E ++ [⟨.itemText, I.drop q⟩]⟩ .sEOF := by
      simp only [step, stepText, List.get?_eq_getElem?, hq]
      rw [if_neg (by simp [hn, hr])]
      simp only [lexPeek, List.get?_eq_getElem?, hp2]
      rw [emitThen_eq e1]
    have hs2 : step (⟨I, p, p, E ++ [⟨.itemText, I.drop q⟩]⟩ : lexer) .sEOF
        = .done ⟨I, p, p, (E ++ [⟨.itemText, I.drop q⟩]) ++ [⟨.itemEOF, []⟩]⟩ := by
      simp only [step, stepEOF]
      rw [if_neg (lt_irrefl p)]
      rw [emitThen_eq e2]
    rw [show fuel + List.length ([] : Str) + 2 = (fuel + 1) + 1 from rfl]
    rw [runLex_next (fuel + 1) _ _ hs1, runLex_done fuel _ _ hs2]
    simp [List.append_assoc]
  | c :: u, I, q, p, E, c0 => by
    intro hq hn hr hdrop hu hqp hple fuel
    have hq2 := hq
    have hg : I.get? p = some c := lex_get?_of_drop hdrop
    rw [List.get?_eq_getElem?] at hq2 hg
    have hlt : p < I.length := lex_lt_length hdrop
    have hdrop2 : I.drop (p + 1) = u := lex_drop_succ hdrop
    have hc := hu c (List.mem_cons_self c u)
    have ha : advance (⟨I, p, q, E⟩ : lexer) = ⟨I, p + 1, q, E⟩ :=
      advance_of_lt hlt
    have hs : step (⟨I, p, q, E⟩ : lexer) .sText = .next ⟨I, p + 1, q, E⟩ .sText := by
      simp only [step, stepText, List.get?_eq_getElem?, hq2]
      rw [if_neg (by simp [hn, hr])]
      simp only [lexPeek, List.get?_eq_getElem?, hg]
      rw [if_neg (by simp [hc.1, hc.2])]
      rw [ha]
    have hstep : runLex (fuel + (c :: u).length + 2) ⟨I, p, q, E⟩ .sText
        = runLex (fuel + u.length + 2) ⟨I, p + 1, q, E⟩ .sText := by
      rw [show fuel + (c :: u).length + 2 = (fuel + u.length + 2) + 1 from by
        simp [List.length_cons]; omega]
      exact runLex_next (fuel + u.length + 2) _ _ hs
    rw [hstep]
    exact text_loop u I q (p + 1) E c0 hq hn hr hdrop2
      (fun d hd => hu d (List.mem_cons_of_mem c hd)) (Nat.le_succ_of_le hqp) hlt fuel

theorem slice_of_drop_append {I u rest : Str} {q : Nat}
    (h : I.drop q = u ++ rest) : slice I q (q + u.length) = u := by
  unfold slice
  rw [List.drop_take (q + u.length) q I, h]
  simp [Nat.add_sub_cancel_left, List.take_left]

theorem drop_append_of_drop {I u rest : Str} {q : Nat}
    (h : I.drop q = u ++ rest) : I.drop (q + u.length) = rest := by
  rw [← List.drop_drop u.length q I, h]
  exact List.drop_left u rest

/-- Running the text loop up to a newline: `lexText` consumes the
newline-free segment `u`, emits the pending input (from `start`) as one
Text token when it peeks the newline, consumes the newline and moves on
to `lexNewLine`. -/
theorem textnl_loop : ∀ (u : Str) (I : Str) (q p : Nat) (E : List item) (c0 : Char)
    (rest : Str),
    I.get? q = some c0 → c0 ≠ '\n' → c0 ≠ '\r' →
    I.drop p = u ++ '\n' :: rest → (∀ c ∈ u, c ≠ '\n' ∧ c ≠ '\r') → q ≤ p →
    ∀ fuel, runLex (fuel + u.length + 1) ⟨I, p, q, E⟩ .sText
      = runLex fuel ⟨I, p + u.length + 1, p + u.length,
          E ++ [⟨.itemText, slice I q (p + u.length)⟩]⟩ .sNewLine
  | [], I, q, p, E, c0, rest => by
    intro hq hn hr hdrop _ hqp fuel
    rw [List.nil_append] at hdrop
    have hq2 := hq
    have hg : I.get? p = some '\n' := lex_get?_of_drop hdrop
    rw [List.get?_eq_getElem?] at hq2 hg
    have hlt : p < I.length := lex_lt_length hdrop
    have he : emit ⟨I, p, q, E⟩ .itemText
        = some ⟨I, p, p, E ++ [⟨.itemText, slice I q p⟩]⟩ := by
      rw [emit_eq _ _ hqp (Nat.le_of_lt hlt)]
    have ha : advance (⟨I, p, p, E ++ [⟨.itemText, slice I q p⟩]⟩ : lexer)
        = ⟨I, p + 1, p, E ++ [⟨.itemText, slice I q p⟩]⟩ :=
      advance_of_lt hlt
    have hs : step (⟨I, p, q, E⟩ : lexer) .sText
        = .next ⟨I, p + 1, p, E ++ [⟨.itemText, slice I q p⟩]⟩ .sNewLine := by
      simp only [step, stepText, List.get?_eq_getElem?, hq2]
      rw [if_neg (by simp [hn, hr])]
      simp only [lexPeek, List.get?_eq_getElem?, hg]
      rw [if_pos (by simp)]
      rw [emitThen_eq he]
      rw [ha]
    simp only [List.length_nil, Nat.add_zero]
    exact runLex_next fuel _ _ hs
  | c :: u, I, q, p, E, c0, rest => by
    intro hq hn hr hdrop hu hqp fuel
    have hq2 := hq
    have hg : I.get? p = some c := lex_get?_of_drop hdrop
    rw [List.get?_eq_getElem?] at hq2 hg
    have hlt : p < I.length := lex_lt_length hdrop
    have hdrop2 : I.drop (p + 1) = u ++ '\n' :: rest := lex_drop_succ hdrop
    have hc := hu c (List.mem_cons_self c u)
    have ha : advance (⟨I, p, q, E⟩ : lexer) = ⟨I, p + 1, q, E⟩ :=
      advance_of_lt hlt
    have hs : step (⟨I, p, q, E⟩ : lexer) .sText = .next ⟨I, p + 1, q, E⟩ .sText := by
      simp only [step, stepText, List.get?_eq_getElem?, hq2]
      rw [if_neg (by simp [hn, hr])]
      simp only [lexPeek, List.get?_eq_getElem?, hg]
      rw [if_neg (by simp [hc.1, hc.2])]
      rw [ha]
    rw [show fuel + (c :: u).length + 1 = (fuel + u.length + 1) + 1 from by
      simp [List.length_cons]; omega]
    rw [runLex_next (fuel + u.length + 1) _ _ hs]
    refine (textnl_loop u I q (p + 1) E c0 rest hq hn hr hdrop2
      (fun d hd => hu d (List.mem_cons_of_mem c hd)) (Nat.le_succ_of_le hqp) fuel).trans
      (congrArg (fun l => runLex fuel l LState.sNewLine) ?_)
    simp only [lexer.mk.injEq, List.length_cons]
    refine ⟨trivial, by omega, by omega, ?_⟩
    rw [show p + 1 + u.length = p + (u.length + 1) from by omega]

/-- Ending a run: the scanner at `lexTag`, with the pending character
being the last character of the input and none of the dispatch
characters, emits it as a Tag token and closes the run with EndOfInput. -/
theorem tag_at_last (I : Str) (p : Nat) (E : List item) (c : Char)
    (hd : I.drop p = [c]) (h1 : c ≠ '.') (h2 : c ≠ '#') (h3 : c ≠ ' ')
    (h4 : c ≠ '\t') (h5 : c ≠ '|') (h6 : c ≠ '\r') (h7 : c ≠ '\n') :
    ∀ fuel, runLex (fuel + 2) ⟨I, p + 1, p, E⟩ .sTag
      = .finished (E ++ [⟨.itemTag, [c]⟩, ⟨.itemEOF, []⟩]) := by
  intro fuel
  have hg : I[p]? = some c := by
    rw [← List.get?_eq_getElem?]
    exact lex_get?_of_drop hd
  have hlen : I.length = p + 1 := by
    have h2l := congrArg List.length hd
    rw [List.length_drop] at h2l
    have h3l := lex_lt_length hd
    simp at h2l
    omega
  have hpk : I[p + 1]? = none := by
    rw [← List.get?_eq_getElem?]
    exact List.get?_eq_none.mpr (by omega)
  have hswC : startsWith (I.drop p) commentMark = false := by
    rw [hd]
    simp [startsWith, startsWithAux, commentMark]
  have hswS : startsWith (I.drop p) docTypeShort = false := by
    rw [hd]
    simp [startsWith, startsWithAux, docTypeShort]
  have hswL : startsWith (I.drop p) docTypeLong = false := by
    rw [hd]
    simp [startsWith, startsWithAux, docTypeLong]
  have he1 : emit ⟨I, p + 1, p, E⟩ .itemTag
      = some ⟨I, p + 1, p + 1, E ++ [⟨.itemTag, [c]⟩]⟩ := by
    rw [emit_eq _ _ (Nat.le_succ p) (show p + 1 ≤ I.length by omega)]
    simp [slice_one hd]
  have he2 : emit ⟨I, p + 1, p + 1, E ++ [⟨.itemTag, [c]⟩]⟩ .itemEOF
      = some ⟨I, p + 1, p + 1, (E ++ [⟨.itemTag, [c]⟩]) ++ [⟨.itemEOF, []⟩]⟩ := by
    rw [emit_eq _ _ (Nat.le_refl _) (show p + 1 ≤ I.length by omega)]
    simp [slice_self]
  have hs1 : step (⟨I, p + 1, p, E⟩ : lexer) .sTag
      = .next ⟨I, p + 1, p + 1, E ++ [⟨.itemTag, [c]⟩]⟩ .sEOF := by
    simp only [step, stepTag, List.get?_eq_getElem?, hg]
    rw [if_neg h1, if_neg h2, if_neg (by simp [h3, h4]), if_neg h5,
      if_neg (by simp [h6, h7])]
    rw [if_neg (by simp [hswC]), if_neg (by simp [hswS, hswL])]
    simp only [lexPeek, List.get?_eq_getElem?, hpk]
    rw [if_pos (Nat.lt_succ_self p)]
    rw [emitThen_eq he1]
  have hs2 : step (⟨I, p + 1, p + 1, E ++ [⟨.itemTag, [c]⟩]⟩ : lexer) .sEOF
      = .done ⟨I, p + 1, p + 1, (E ++ [⟨.itemTag, [c]⟩]) ++ [⟨.itemEOF, []⟩]⟩ := by
    simp only [step, stepEOF]
    rw [if_neg (lt_irrefl (p + 1))]
    rw [emitThen_eq he2]
  rw [show fuel + 2 = (fuel + 1) + 1 from rfl]
  rw [runLex_next (fuel + 1) _ _ hs1, runLex_done fuel _ _ hs2]
  simp [List.append_assoc]

/-- Once the attribute scanner has reached end of input without a
closing parenthesis, each step returns the very same configuration: no
amount of fuel finishes the run. -/
theorem attr_eof_self_loop (l : lexer) (hl : l.input.length ≤ l.pos) :
    ∀ fuel, (runLex fuel l .sAttr).isOutOfFuel = true := by
  intro fuel
  induction fuel with
  | zero => rfl
  | succ n ih =>
    have hp : lexPeek l = none := by
      unfold lexPeek
      exact List.get?_eq_none.mpr hl
    simp [runLex, step, stepAttr, hp, ih]

/- ------------------------------------------------------------------ -/
/- Claim theorems about the tokenizer.                                 -/
/- ------------------------------------------------------------------ -/

/-- C1: the claim that every input yields a finite terminated token
sequence fails.  On the input `a(b` — an attribute list `(` with no
closing `)` — the scanner keeps running for every amount of fuel: after
emitting the Tag token it enters the attribute loop, whose `peek` keeps
answering end-of-input into the no-progress default arm, so no terminal
token is ever produced. -/
theorem c1_unclosed_attr_list_never_terminates :
    ∀ fuel, (runLex fuel (lexInit ("a(b".data)) .sTag).isOutOfFuel = true := by
  intro fuel
  match fuel with
  | 0 => rfl
  | 1 => rfl
  | 2 => rfl
  | (n + 3) =>
    have h : runLex (n + 3) (lexInit ("a(b".data)) .sTag
        = runLex n ⟨"a(b".data, 3, 2, [⟨.itemTag, ['a']⟩]⟩ .sAttr := rfl
    rw [h]
    exact attr_eof_self_loop _ (by decide) n

/-- C2: the claim that the scanner never reads the input out of bounds
fails on each of the three listed input classes.  The input `a\n` (ends
with a newline) crashes after Tag and Endl: `lexNewLine` reads
`input[2]` past the end.  The input consisting of one space (begins with
whitespace) crashes after two IndentSpace tokens, the first with an
empty lexeme.  The input `doctype\n` (doctype marker not followed by a
space) crashes in `lexDocType`, whose `input[start:pos]` slice has
`start = 8 > pos = 7`. -/
theorem c2_scanner_reads_out_of_bounds :
    runLex 10 (lexInit ("a\n".data)) .sTag
      = .crashed [⟨.itemTag, ['a']⟩, ⟨.itemEndl, ['\n']⟩]
  ∧ runLex 10 (lexInit (" ".data)) .sTag
      = .crashed [⟨.itemIdentSpace, []⟩, ⟨.itemIdentSpace, [' ']⟩]
  ∧ runLex 10 (lexInit ("doctype\n".data)) .sTag = .crashed [] :=
  ⟨rfl, rfl, rfl⟩

/-- C3: on every input whose first line is a doctype marker line
(`doctype` or `!!!`) with no newline before end-of-input, the tokenizer
emits the single terminal Error token "unclosed doctype", and building
propagates it as a failure carrying no tree. -/
theorem c3_unclosed_doctype_is_terminal_error (s : Str) (fuel : Nat)
    (hm : (∃ t, s = docTypeLong ++ t) ∨ (∃ t, s = docTypeShort ++ t))
    (hnl : '\n' ∉ s) :
    runLex (fuel + 2) (lexInit s) .sTag
        = .finished [⟨.itemError, "unclosed doctype".data⟩]
  ∧ buildResult [⟨.itemError, "unclosed doctype".data⟩]
        = .error ("unclosed doctype".data) := by
  refine ⟨?_, rfl⟩
  have herr : ∀ l : lexer, indexOfNL (l.input.drop l.pos) = none →
      runLex (fuel + 1) l .sDocType
        = .finished (l.emitted ++ [⟨.itemError, "unclosed doctype".data⟩]) := by
    intro l hidx
    simp [runLex, step, stepDocType, hidx]
  rcases hm with ⟨t, rfl⟩ | ⟨t, rfl⟩
  · have h1 : runLex (fuel + 2) (lexInit (docTypeLong ++ t)) .sTag
        = runLex (fuel + 1) (lexInit (docTypeLong ++ t)) .sDocType := rfl
    rw [h1, herr _ (by simpa [lexInit] using indexOfNL_eq_none _ hnl)]
    simp [lexInit]
  · have h1 : runLex (fuel + 2) (lexInit (docTypeShort ++ t)) .sTag
        = runLex (fuel + 1) (lexInit (docTypeShort ++ t)) .sDocType := rfl
    rw [h1, herr _ (by simpa [lexInit] using indexOfNL_eq_none _ hnl)]
    simp [lexInit]

/-- C3 witness: the theorem applied to the concrete input `doctype 5`. -/
theorem c3_unclosed_doctype_is_terminal_error_witness :
    runLex 2 (lexInit ("doctype 5".data)) .sTag
        = .finished [⟨.itemError, "unclosed doctype".data⟩]
  ∧ buildResult [⟨.itemError, "unclosed doctype".data⟩]
        = .error ("unclosed doctype".data) :=
  c3_unclosed_doctype_is_terminal_error ("doctype 5".data) 0
    (Or.inl ⟨" 5".data, by decide⟩) (by decide)

/-- C7 counterexample: the input consisting of one space followed by `a`
has one leading whitespace character, yet the tokenizer emits two
IndentSpace tokens — the first with an empty lexeme, not a single-character
one — because `lexIndent` is entered from `lexTag` before any character
has been consumed. -/
theorem c7_counterexample :
    runLex 10 (lexInit (" a".data)) .sTag
      = .finished [⟨.itemIdentSpace, []⟩, ⟨.itemIdentSpace, [' ']⟩,
                   ⟨.itemTag, ['a']⟩, ⟨.itemEOF, []⟩]
  ∧ indentCount [⟨.itemIdentSpace, []⟩, ⟨.itemIdentSpace, [' ']⟩,
                 ⟨.itemTag, ['a']⟩, ⟨.itemEOF, []⟩] = 2
  ∧ leadingWS (" a".data) = 1 :=
  ⟨rfl, rfl, rfl⟩

/-- C8 counterexample: when the `|` line is the very first line of the
input, `lexTag`'s `ignore` is a no-op (`start = pos = 0`, the marker is
not yet consumed), so the emitted Text token contains the `|` marker. -/
theorem c8_counterexample :
    runLex 10 (lexInit ("|x".data)) .sTag
      = .finished [⟨.itemText, ['|', 'x']⟩, ⟨.itemEOF, []⟩]
  ∧ '|' ∈ ['|', 'x'] :=
  ⟨rfl, by decide⟩

/-- C7 (amended): for lines reached after a newline token the claimed
counts hold exactly — a line with `n` leading spaces yields exactly `n`
IndentSpace tokens, one per character, each with that single character
as lexeme, and a run of `k + 1` newline characters yields exactly
`k + 1` Endl tokens, one per character.  (When the input itself begins
with whitespace or a newline, one extra token with an empty lexeme is
emitted first — see the counterexample.) -/
theorem c7_one_token_per_whitespace_character :
    (∀ (n fuel : Nat),
      runLex (fuel + n + 7)
          (lexInit ('a' :: '\n' :: (List.replicate n ' ' ++ ['b']))) .sTag
        = .finished ([⟨.itemTag, ['a']⟩, ⟨.itemEndl, ['\n']⟩]
            ++ List.replicate n ⟨.itemIdentSpace, [' ']⟩
            ++ [⟨.itemTag, ['b']⟩, ⟨.itemEOF, []⟩]))
  ∧ (∀ (k fuel : Nat),
      runLex (fuel + k + 7)
          (lexInit ('a' :: (List.replicate (k + 1) '\n' ++ ['b']))) .sTag
        = .finished ([⟨.itemTag, ['a']⟩]
            ++ List.replicate (k + 1) ⟨.itemEndl, ['\n']⟩
            ++ [⟨.itemTag, ['b']⟩, ⟨.itemEOF, []⟩])) := by
  constructor
  · intro n fuel
    cases n with
    | zero => rfl
    | succ m =>
      have hI : ('a' :: '\n' :: (List.replicate (m + 1) ' ' ++ ['b'])).drop 2
          = List.replicate (m + 1) ' ' ++ ['b'] := rfl
      have h2 : runLex (fuel + (m + 1) + 7)
            (lexInit ('a' :: '\n' :: (List.replicate (m + 1) ' ' ++ ['b']))) .sTag
          = runLex (fuel + (m + 1) + 5)
            ⟨'a' :: '\n' :: (List.replicate (m + 1) ' ' ++ ['b']), 2, 1,
              [⟨.itemTag, ['a']⟩]⟩ .sNewLine := rfl
      rw [h2]
      rw [show fuel + (m + 1) + 5 = (fuel + (m + 1) + 3) + 1 + 1 from by omega]
      have hnl := newline_loop 1 ('a' :: '\n' :: (List.replicate (m + 1) ' ' ++ ['b'])) 1
        [⟨.itemTag, ['a']⟩] ' ' (List.replicate m ' ' ++ ['b'])
        (by simp [List.replicate_succ]) (by decide) (by decide) (fuel + (m + 1) + 3)
      refine hnl.trans ?_
      rw [show fuel + (m + 1) + 3 = (fuel + 2) + (m + 1) + 1 from by omega]
      have hil := indent_loop (m + 1) ('a' :: '\n' :: (List.replicate (m + 1) ' ' ++ ['b'])) 2
        [⟨.itemTag, ['a']⟩, ⟨.itemEndl, ['\n']⟩] 'b' []
        (by rfl) (by decide) (by decide) (fuel + 2)
      refine hil.trans ?_
      have hd : ('a' :: '\n' :: (List.replicate (m + 1) ' ' ++ ['b'])).drop (2 + (m + 1))
          = ['b'] := by
        rw [← List.drop_drop (m + 1) 2]
        rw [hI]
        simpa using List.drop_left (List.replicate (m + 1) ' ') ['b']
      refine (tag_at_last _ (2 + (m + 1)) _ 'b' hd (by decide) (by decide) (by decide)
        (by decide) (by decide) (by decide) (by decide) fuel).trans ?_
      refine congrArg Outcome.finished ?_
      simp [List.append_assoc]
  · intro k fuel
    have h2 : runLex (fuel + k + 7)
          (lexInit ('a' :: (List.replicate (k + 1) '\n' ++ ['b']))) .sTag
        = runLex (fuel + k + 5)
          ⟨'a' :: (List.replicate (k + 1) '\n' ++ ['b']), 2, 1,
            [⟨.itemTag, ['a']⟩]⟩ .sNewLine := rfl
    rw [h2]
    rw [show fuel + k + 5 = (fuel + 3) + (k + 1) + 1 from by omega]
    have hnl := newline_loop (k + 1) ('a' :: (List.replicate (k + 1) '\n' ++ ['b'])) 1
      [⟨.itemTag, ['a']⟩] 'b' [] (by rfl) (by decide) (by decide) (fuel + 3)
    refine hnl.trans ?_
    have hd : ('a' :: (List.replicate (k + 1) '\n' ++ ['b'])).drop (1 + (k + 1))
        = ['b'] := by
      rw [← List.drop_drop (k + 1) 1]
      rw [show ('a' :: (List.replicate (k + 1) '\n' ++ ['b'])).drop 1
          = List.replicate (k + 1) '\n' ++ ['b'] from rfl]
      simpa using List.drop_left (List.replicate (k + 1) '\n') ['b']
    have hgb : ('a' :: (List.replicate (k + 1) '\n' ++ ['b']))[1 + (k + 1)]? = some 'b' := by
      rw [← List.get?_eq_getElem?]
      exact lex_get?_of_drop hd
    have hsi : step (⟨'a' :: (List.replicate (k + 1) '\n' ++ ['b']),
          1 + (k + 1) + 1, 1 + (k + 1),
          [⟨.itemTag, ['a']⟩] ++ List.replicate (k + 1) ⟨.itemEndl, ['\n']⟩⟩ : lexer) .sIndent
        = .next ⟨'a' :: (List.replicate (k + 1) '\n' ++ ['b']),
          1 + (k + 1) + 1, 1 + (k + 1),
          [⟨.itemTag, ['a']⟩] ++ List.replicate (k + 1) ⟨.itemEndl, ['\n']⟩⟩ .sTag := by
      simp only [step, stepIndent, List.get?_eq_getElem?, hgb]
      rw [if_neg (by decide), if_neg (by decide)]
    refine (runLex_next (fuel + 2) _ _ hsi).trans ?_
    refine (tag_at_last _ (1 + (k + 1)) _ 'b' hd (by decide) (by decide) (by decide)
      (by decide) (by decide) (by decide) (by decide) fuel).trans ?_
    refine congrArg Outcome.finished ?_
    simp [List.append_assoc]

/-- C8 (amended): for a `|` line reached after a newline the marker
character is discarded and appears in no emitted lexeme.  A non-empty
newline-free remainder is emitted as a single Text token not containing
the marker, whether the line ends the input or is followed by a newline
and a further line.  An empty remainder yields no Text token at all: a
`|` ending the input makes the scanner read past the end and panic, and
a `|` directly followed by a newline contributes only newline tokens
(the first of them with an empty lexeme, from the same emit-before-
consume pattern).  At the very start of the input the marker is kept;
see the counterexample. -/
theorem c8_pipe_marker_discarded_after_newline :
    (∀ (s : Str) (fuel : Nat), s ≠ [] → (∀ c ∈ s, c ≠ '\n' ∧ c ≠ '\r') →
      runLex (fuel + s.length + 8) (lexInit ('a' :: '\n' :: '|' :: s)) .sTag
        = .finished [⟨.itemTag, ['a']⟩, ⟨.itemEndl, ['\n']⟩,
                     ⟨.itemText, s⟩, ⟨.itemEOF, []⟩])
  ∧ (∀ (s : Str) (fuel : Nat), s ≠ [] → (∀ c ∈ s, c ≠ '\n' ∧ c ≠ '\r') →
      runLex (fuel + s.length + 12)
          (lexInit ('a' :: '\n' :: '|' :: (s ++ ['\n', 'b']))) .sTag
        = .finished [⟨.itemTag, ['a']⟩, ⟨.itemEndl, ['\n']⟩, ⟨.itemText, s⟩,
                     ⟨.itemEndl, ['\n']⟩, ⟨.itemTag, ['b']⟩, ⟨.itemEOF, []⟩])
  ∧ runLex 10 (lexInit ['a', '\n', '|']) .sTag
      = .crashed [⟨.itemTag, ['a']⟩, ⟨.itemEndl, ['\n']⟩]
  ∧ runLex 20 (lexInit ['a', '\n', '|', '\n', 'b']) .sTag
      = .finished [⟨.itemTag, ['a']⟩, ⟨.itemEndl, ['\n']⟩, ⟨.itemEndl, []⟩,
                   ⟨.itemEndl, ['\n']⟩, ⟨.itemTag, ['b']⟩, ⟨.itemEOF, []⟩] := by
  refine ⟨?_, ?_, rfl, rfl⟩
  · intro s fuel hs hnl
    obtain ⟨c0, u0, rfl⟩ := List.exists_cons_of_ne_nil hs
    have h6 : runLex (fuel + (c0 :: u0).length + 8)
          (lexInit ('a' :: '\n' :: '|' :: c0 :: u0)) .sTag
        = runLex (fuel + (c0 :: u0).length + 2)
          ⟨'a' :: '\n' :: '|' :: c0 :: u0, 3, 3,
            [⟨.itemTag, ['a']⟩, ⟨.itemEndl, ['\n']⟩]⟩ .sText := rfl
    rw [h6]
    have hc0 := hnl c0 (List.mem_cons_self c0 u0)
    have htl := text_loop (c0 :: u0) ('a' :: '\n' :: '|' :: c0 :: u0) 3 3
      [⟨.itemTag, ['a']⟩, ⟨.itemEndl, ['\n']⟩] c0 (by rfl) hc0.1 hc0.2 (by rfl) hnl
      (Nat.le_refl 3) (by simp) fuel
    refine htl.trans ?_
    refine congrArg Outcome.finished ?_
    simp
  · intro s fuel hs hnl
    obtain ⟨c0, u0, rfl⟩ := List.exists_cons_of_ne_nil hs
    have h3 : ('a' :: '\n' :: '|' :: ((c0 :: u0) ++ ['\n', 'b'])).drop 3
        = (c0 :: u0) ++ '\n' :: ['b'] := rfl
    have h6 : runLex (fuel + (c0 :: u0).length + 12)
          (lexInit ('a' :: '\n' :: '|' :: ((c0 :: u0) ++ ['\n', 'b']))) .sTag
        = runLex (fuel + (c0 :: u0).length + 6)
          ⟨'a' :: '\n' :: '|' :: ((c0 :: u0) ++ ['\n', 'b']), 3, 3,
            [⟨.itemTag, ['a']⟩, ⟨.itemEndl, ['\n']⟩]⟩ .sText := rfl
    rw [h6]
    rw [show fuel + (c0 :: u0).length + 6
        = (fuel + 5) + (c0 :: u0).length + 1 from by omega]
    have hc0 := hnl c0 (List.mem_cons_self c0 u0)
    have htl := textnl_loop (c0 :: u0) ('a' :: '\n' :: '|' :: ((c0 :: u0) ++ ['\n', 'b']))
      3 3 [⟨.itemTag, ['a']⟩, ⟨.itemEndl, ['\n']⟩] c0 ['b']
      (by rfl) hc0.1 hc0.2 h3 hnl (Nat.le_refl 3) (fuel + 5)
    rw [slice_of_drop_append h3] at htl
    refine htl.trans ?_
    have hdP : ('a' :: '\n' :: '|' :: ((c0 :: u0) ++ ['\n', 'b'])).drop
        (3 + (c0 :: u0).length) = '\n' :: ['b'] := drop_append_of_drop h3
    have hnlp := newline_loop 1 ('a' :: '\n' :: '|' :: ((c0 :: u0) ++ ['\n', 'b']))
      (3 + (c0 :: u0).length)
      ([⟨.itemTag, ['a']⟩, ⟨.itemEndl, ['\n']⟩] ++ [⟨.itemText, c0 :: u0⟩]) 'b' []
      (by simpa using hdP) (by decide) (by decide) (fuel + 3)
    refine hnlp.trans ?_
    have hd1 : ('a' :: '\n' :: '|' :: ((c0 :: u0) ++ ['\n', 'b'])).drop
        (3 + (c0 :: u0).length + 1) = ['b'] := lex_drop_succ hdP
    have hgb : ('a' :: '\n' :: '|' :: ((c0 :: u0) ++ ['\n', 'b']))[3 + (c0 :: u0).length + 1]?
        = some 'b' := by
      rw [← List.get?_eq_getElem?]
      exact lex_get?_of_drop hd1
    have hsi : step (⟨'a' :: '\n' :: '|' :: ((c0 :: u0) ++ ['\n', 'b']),
          3 + (c0 :: u0).length + 1 + 1, 3 + (c0 :: u0).length + 1,
          ([⟨.itemTag, ['a']⟩, ⟨.itemEndl, ['\n']⟩] ++ [⟨.itemText, c0 :: u0⟩])
            ++ List.replicate 1 ⟨.itemEndl, ['\n']⟩⟩ : lexer) .sIndent
        = .next ⟨'a' :: '\n' :: '|' :: ((c0 :: u0) ++ ['\n', 'b']),
          3 + (c0 :: u0).length + 1 + 1, 3 + (c0 :: u0).length + 1,
          ([⟨.itemTag, ['a']⟩, ⟨.itemEndl, ['\n']⟩] ++ [⟨.itemText, c0 :: u0⟩])
            ++ List.replicate 1 ⟨.itemEndl, ['\n']⟩⟩ .sTag := by
      simp only [step, stepIndent, List.get?_eq_getElem?, hgb]
      rw [if_neg (by decide), if_neg (by decide)]
    refine (runLex_next (fuel + 2) _ _ hsi).trans ?_
    refine (tag_at_last _ (3 + (c0 :: u0).length + 1) _ 'b' hd1 (by decide) (by decide)
      (by decide) (by decide) (by decide) (by decide) (by decide) fuel).trans ?_
    refine congrArg Outcome.finished ?_
    simp [List.append_assoc]

/-- C8 witness: both universally quantified parts of the amended theorem
applied at the concrete remainder `x` — at end of input and followed by
a newline and a `b` line — with the Text token exactly `x`. -/
theorem c8_pipe_marker_discarded_after_newline_witness :
    runLex 9 (lexInit ['a', '\n', '|', 'x']) .sTag
      = .finished [⟨.itemTag, ['a']⟩, ⟨.itemEndl, ['\n']⟩,
                   ⟨.itemText, ['x']⟩, ⟨.itemEOF, []⟩]
  ∧ runLex 13 (lexInit ['a', '\n', '|', 'x', '\n', 'b']) .sTag
      = .finished [⟨.itemTag, ['a']⟩, ⟨.itemEndl, ['\n']⟩, ⟨.itemText, ['x']⟩,
                   ⟨.itemEndl, ['\n']⟩, ⟨.itemTag, ['b']⟩, ⟨.itemEOF, []⟩] :=
  ⟨c8_pipe_marker_discarded_after_newline.1 ['x'] 0 (by decide) (by decide),
   c8_pipe_marker_discarded_after_newline.2.1 ['x'] 0 (by decide) (by decide)⟩

end gojade
